import Mathlib

/-!
Verification of the polyline geometry and route-midpoint module
(`src/app/lib/utils/coordinates.ts`) of the middle-pub repository.

The TypeScript source is shallowly embedded here:
* JavaScript 32-bit bitwise operators (`|`, `&`, `<<`, `>>`, `~`) are
  modelled on `Int` through their ECMAScript `ToInt32`/`ToUint32`
  semantics.
* `String.charCodeAt` of an out-of-range index yields `NaN` in
  JavaScript; a read past the end of the string is modelled by the
  missing-element case of the character-code list, and the ECMAScript
  coercions of `NaN` (`ToInt32(NaN) = 0`, every `NaN` comparison false)
  are written out at each use site.
* JavaScript numbers are modelled exactly: the decoder state is integer
  valued, duration arithmetic in the midpoint resolver is rational with
  `Option ℚ` (`none` = `NaN`), and the geometry (haversine distance and
  interpolation) lives in `ℝ`.
* A thrown exception is an `Except.error`; the `null` "no result" value
  of the midpoint resolver is `Option.none` in the `Except.ok` payload.
-/

namespace MiddlePub

/-! ## ECMAScript 32-bit integer coercions and bitwise operators -/

/-- `ToUint32`: the representative of an integer modulo `2^32`, as a `Nat`. -/
def toUInt32n (n : Int) : Nat := (Int.emod n (2 ^ 32)).toNat

/-- Reinterpret a `Nat` below `2^32` as a signed 32-bit value. -/
def ofUInt32 (n : Nat) : Int := if n < 2 ^ 31 then (n : Int) else (n : Int) - 2 ^ 32

/-- `ToInt32`: coerce an integer to the signed 32-bit range. -/
def toInt32 (n : Int) : Int := ofUInt32 (toUInt32n n)

/-- JavaScript `a | b` on 32-bit integer operands. -/
def jsOr (a b : Int) : Int := ofUInt32 (Nat.lor (toUInt32n a) (toUInt32n b))

/-- JavaScript `a & b` on 32-bit integer operands. -/
def jsAnd (a b : Int) : Int := ofUInt32 (Nat.land (toUInt32n a) (toUInt32n b))

/-- JavaScript `a << b`: the shift count is taken modulo 32 and the result
wraps to the signed 32-bit range. -/
def jsShl (a : Int) (b : Nat) : Int :=
  ofUInt32 ((toUInt32n a <<< (b % 32)) % 2 ^ 32)

/-- JavaScript `a >> b` (sign-propagating right shift): arithmetic shift of
the `ToInt32` image, i.e. floor division by `2 ^ (b % 32)`. -/
def jsShrS (a : Int) (b : Nat) : Int := Int.fdiv (toInt32 a) (2 ^ (b % 32))

/-- JavaScript `~a`: two's-complement bitwise NOT of the `ToInt32` image. -/
def jsNot (a : Int) : Int := -(toInt32 a) - 1

/-! ## Polyline decoder (`decodePolyline`, coordinates.ts lines 20–65) -/

/-- The UTF-16 code units of a string, as the character-code list the
decoder walks over (all polyline characters are ASCII). -/
def strCodes (s : String) : List Nat := s.data.map Char.toNat

/-- One `do { byte = encoded.charCodeAt(index++) - 63; result |= (byte & 0x1f)
<< shift; shift += 5; } while (byte >= 0x20)` group of `decodePolyline`.
Consumes characters from the front of `s`; an empty `s` is the
out-of-range `charCodeAt` read: `byte` is `NaN`, `ToInt32(NaN) = 0`
contributes nothing to `result`, and `NaN >= 0x20` is false, ending the
loop. Returns the accumulated `result` and the unconsumed characters. -/
def decodeGroup (s : List Nat) (shift : Nat) (result : Int) : Int × List Nat :=
  match s with
  | [] => (jsOr result (jsShl (jsAnd 0 0x1f) shift), [])
  | c :: rest =>
      let byte : Int := (c : Int) - 63
      let result1 := jsOr result (jsShl (jsAnd byte 0x1f) shift)
      if byte ≥ 0x20 then decodeGroup rest (shift + 5) result1
      else (result1, rest)

/-- The `while (index < encoded.length)` loop of `decodePolyline`, producing
the scaled integer coordinates in the pushed `[lng, lat]` order (the final
division by `factor` is applied by `decodePolyline` below). `fuel` bounds
the iteration count; every iteration on a nonempty list consumes at least
one character, so `fuel = s.length` never runs out. -/
def decodeLoop (fuel : Nat) (s : List Nat) (lat lng : Int) : List (Int × Int) :=
  match fuel with
  | 0 => []
  | fuel + 1 =>
    match s with
    | [] => []
    | _ :: _ =>
      let latGroup := decodeGroup s 0 0
      let deltaLat :=
        if jsAnd latGroup.1 1 ≠ 0 then jsNot (jsShrS latGroup.1 1)
        else jsShrS latGroup.1 1
      let lat1 := lat + deltaLat
      let lngGroup := decodeGroup latGroup.2 0 0
      let deltaLng :=
        if jsAnd lngGroup.1 1 ≠ 0 then jsNot (jsShrS lngGroup.1 1)
        else jsShrS lngGroup.1 1
      let lng1 := lng + deltaLng
      (lng1, lat1) :: decodeLoop fuel lngGroup.2 lat1 lng1

/-- A geographic coordinate in the `[lng, lat]` order of the source. -/
abbrev Coord := ℝ × ℝ

/-- `decodePolyline(encoded, precision = 5)`: decode a Google encoded
polyline into `[lng, lat]` coordinates; `factor = Math.pow(10, precision)`
divides the running integer totals into decimal degrees. -/
noncomputable def decodePolyline (encoded : String) (precision : Nat := 5) :
    List Coord :=
  let factor : ℝ := 10 ^ precision
  (decodeLoop (strCodes encoded).length (strCodes encoded) 0 0).map
    (fun p => ((p.1 : ℝ) / factor, (p.2 : ℝ) / factor))

/-! ## Geometry utilities (coordinates.ts lines 67–163) -/

open Real in
/-- JavaScript `Math.atan2(y, x)` on real arguments (the `±0` distinctions
of IEEE 754 collapse to the single real `0`). -/
noncomputable def jsAtan2 (y x : ℝ) : ℝ :=
  if 0 < x then Real.arctan (y / x)
  else if x < 0 ∧ 0 ≤ y then Real.arctan (y / x) + Real.pi
  else if x < 0 ∧ y < 0 then Real.arctan (y / x) - Real.pi
  else if x = 0 ∧ 0 < y then Real.pi / 2
  else if x = 0 ∧ y < 0 then -(Real.pi / 2)
  else 0

/-- `haversineDistance(coord1, coord2)`: great-circle distance in meters
between two `[lng, lat]` coordinates, Earth radius 6 371 000 m. -/
noncomputable def haversineDistance (coord1 coord2 : Coord) : ℝ :=
  let R : ℝ := 6371000
  let lat1 := coord1.2 * Real.pi / 180
  let lat2 := coord2.2 * Real.pi / 180
  let deltaLat := (coord2.2 - coord1.2) * Real.pi / 180
  let deltaLng := (coord2.1 - coord1.1) * Real.pi / 180
  let a := Real.sin (deltaLat / 2) * Real.sin (deltaLat / 2) +
    Real.cos lat1 * Real.cos lat2 *
      Real.sin (deltaLng / 2) * Real.sin (deltaLng / 2)
  let c := 2 * jsAtan2 (Real.sqrt a) (Real.sqrt (1 - a))
  R * c

/-- The `for (let i = 0; i < segmentLengths.length; i++)` walk of
`getPositionOnPolyline` over the consecutive segments (start, end, length):
`some` is the in-loop `return`, `none` reaches the fallback after the loop. -/
noncomputable def walkSegments :
    List (Coord × Coord × ℝ) → ℝ → ℝ → Option Coord
  | [], _, _ => none
  | (s, e, len) :: rest, targetDistance, accumulatedDistance =>
      if accumulatedDistance + len ≥ targetDistance then
        let remainingDistance := targetDistance - accumulatedDistance
        let segmentRatio := if len > 0 then remainingDistance / len else 0
        some (s.1 + (e.1 - s.1) * segmentRatio,
              s.2 + (e.2 - s.2) * segmentRatio)
      else walkSegments rest targetDistance (accumulatedDistance + len)

/-- The consecutive segments of a polyline with their haversine lengths
(the `segmentLengths` array together with the `polyline[i]`,
`polyline[i + 1]` endpoints it is indexed against). -/
noncomputable def segmentsOf (polyline : List Coord) : List (Coord × Coord × ℝ) :=
  (polyline.zip polyline.tail).map (fun pq => (pq.1, pq.2, haversineDistance pq.1 pq.2))

/-- `getPositionOnPolyline(polyline, position)`: the coordinate at a
fractional position along a polyline; throws on an empty polyline. -/
noncomputable def getPositionOnPolyline (polyline : List Coord) (position : ℝ) :
    Except String Coord :=
  if polyline.length = 0 then
    Except.error ("Polyline must have at least one coordinate")
  else if polyline.length = 1 then Except.ok (polyline.headD (0, 0))
  else
    let clampedPosition := max 0 (min 1 position)
    if clampedPosition = 0 then Except.ok (polyline.headD (0, 0))
    else if clampedPosition = 1 then Except.ok (polyline.getLastD (0, 0))
    else
      let segs := segmentsOf polyline
      let totalLength := (segs.map (fun t => t.2.2)).sum
      let targetDistance := clampedPosition * totalLength
      match walkSegments segs targetDistance 0 with
      | some c => Except.ok c
      | none => Except.ok (polyline.getLastD (0, 0))

/-! ## Duration parsing (`parseDurationToSeconds`, lines 165–173) -/

/-- Leading decimal digits of a character list, as digit values, with the
unconsumed remainder. -/
def takeDigits : List Char → List Nat × List Char
  | [] => ([], [])
  | c :: rest =>
      if c.isDigit then
        let t := takeDigits rest
        ((c.toNat - 48) :: t.1, t.2)
      else ([], c :: rest)

/-- Value of a digit list read as an integer part. -/
def digitsToNat (ds : List Nat) : Nat := ds.foldl (fun a d => 10 * a + d) 0

/-- Value of a digit list read as a fractional part. -/
def fracVal (ds : List Nat) : ℚ := ds.foldr (fun d acc => ((d : ℚ) + acc) / 10) 0

/-- The syntactic scan of JavaScript `parseFloat` on the decimal fragment
relevant here (route duration strings match `^\d+(\.\d+)?s$`): leading
whitespace is skipped, an optional sign (`true` = negative) and the longest
`digits [. digits]` prefix are read, trailing garbage is ignored, and
`none` (`NaN`) is returned when no digit is found. Exponents, `Infinity`
and hex forms of the full grammar are out of scope. -/
def parseFloatScan (s : String) : Option (Bool × List Nat × List Nat) :=
  let cs := s.data.dropWhile Char.isWhitespace
  let signed : Bool × List Char :=
    match cs with
    | '-' :: r => (true, r)
    | '+' :: r => (false, r)
    | _ => (false, cs)
  let ip := takeDigits signed.2
  let fp : List Nat × List Char :=
    match ip.2 with
    | '.' :: r => takeDigits r
    | _ => ([], ip.2)
  if ip.1 = [] ∧ fp.1 = [] then none
  else some (signed.1, ip.1, fp.1)

/-- JavaScript `parseFloat`: the numeric value of the scanned sign, integer
digits and fraction digits; `none` is `NaN`. -/
def jsParseFloat (s : String) : Option ℚ :=
  (parseFloatScan s).map (fun t =>
    (if t.1 then (-1 : ℚ) else 1) * ((digitsToNat t.2.1 : ℚ) + fracVal t.2.2))

/-- Remove the first occurrence of a character from a character list
(JavaScript `String.prototype.replace` with a single-character pattern and
empty replacement). -/
def removeFirstChar : List Char → Char → List Char
  | [], _ => []
  | c :: rest, p => if c = p then rest else c :: removeFirstChar rest p

/-- `parseDurationToSeconds(duration)`: `!duration` (an absent or empty
string) yields `0`; otherwise `parseFloat(duration.replace("s", ""))`,
whose `NaN` outcome is `none`. -/
def parseDurationToSeconds (duration : Option String) : Option ℚ :=
  match duration with
  | none => some 0
  | some s =>
      if s = "" then some 0
      else jsParseFloat (String.mk (removeFirstChar s.data 's'))

/-! ## Route midpoint resolver (`getRouteMidpointByDuration`, lines 175–243)

`Option ℚ` models a JavaScript duration number with `none` for `NaN`:
addition propagates `NaN` and every comparison against `NaN` is false. -/

/-- `NaN`-propagating addition of duration numbers. -/
def nadd : Option ℚ → Option ℚ → Option ℚ
  | some a, some b => some (a + b)
  | _, _ => none

/-- `>=` on duration numbers: false when either side is `NaN`. -/
def nge : Option ℚ → Option ℚ → Bool
  | some a, some b => a ≥ b
  | _, _ => false

/-- The fields of `GooglePolyline` (types/routes.ts) read by this module. -/
structure GooglePolyline where
  encodedPolyline : Option String
deriving DecidableEq

/-- The fields of `GoogleRouteLegStep` (types/routes.ts) read by this
module; the remaining optional fields are never consulted. -/
structure GoogleRouteLegStep where
  staticDuration : Option String
  polyline : Option GooglePolyline
deriving DecidableEq

/-- The truthiness test `!step.polyline?.encodedPolyline`: `none` when the
`polyline` object is absent, the `encodedPolyline` field is absent, or the
encoded string is empty (falsy). -/
def stepEncoded (step : GoogleRouteLegStep) : Option String :=
  match step.polyline with
  | none => none
  | some p =>
      match p.encodedPolyline with
      | none => none
      | some e => if e = "" then none else some e

/-- The per-step parsed durations (`stepDurations`, line 191). -/
def stepDurationsOf (steps : List GoogleRouteLegStep) : List (Option ℚ) :=
  steps.map (fun step => parseDurationToSeconds step.staticDuration)

/-- The total parsed duration (`totalDuration`, line 194). -/
def totalDurationOf (steps : List GoogleRouteLegStep) : Option ℚ :=
  (stepDurationsOf steps).foldl nadd (some 0)

/-- The loop body of `getRouteMidpointByDuration` at the straddling step:
missing polyline ⇒ `null`; empty decode ⇒ `null`; otherwise the position
`(targetTime - accumulatedTime) / stepDuration` (or `0.5` for a
zero-duration step) along the decoded polyline. The catch-all `NaN` case is
unreachable: the loop guard `accumulatedTime + stepDuration >= targetTime`
only succeeds on non-`NaN` operands. -/
noncomputable def stepAction (step : GoogleRouteLegStep)
    (stepDuration targetTime accumulatedTime : Option ℚ) :
    Except String (Option Coord) :=
  match stepEncoded step with
  | none => Except.ok none
  | some enc =>
      let polyline := decodePolyline enc 5
      if polyline.length = 0 then Except.ok none
      else
        match targetTime, accumulatedTime, stepDuration with
        | some t, some acc, some d =>
            let timeIntoStep := t - acc
            let positionInStep : ℚ := if d > 0 then timeIntoStep / d else 1 / 2
            (getPositionOnPolyline polyline ((positionInStep : ℚ) : ℝ)).map some
        | _, _, _ => Except.ok none

/-- The `for (let i = 0; i < steps.length; i++)` scan of
`getRouteMidpointByDuration`: `some` is the in-loop `return`, `none` means
the loop ran to completion and the post-loop fallback is reached. The
mixed-length case is unreachable (`durations` has one entry per step). -/
noncomputable def midLoop :
    List GoogleRouteLegStep → List (Option ℚ) → Option ℚ → Option ℚ →
    Option (Except String (Option Coord))
  | [], _, _, _ => none
  | _ :: _, [], _, _ => none
  | step :: steps, d :: ds, targetTime, accumulatedTime =>
      if nge (nadd accumulatedTime d) targetTime then
        some (stepAction step d targetTime accumulatedTime)
      else midLoop steps ds targetTime (nadd accumulatedTime d)

/-- `getRouteMidpointByDuration(steps)`: the `[lng, lat]` coordinate at the
temporal midpoint of a route, or `null` (`Option.none`). -/
noncomputable def getRouteMidpointByDuration (steps : List GoogleRouteLegStep) :
    Except String (Option Coord) :=
  if steps.length = 0 then Except.ok none
  else
    let durations := stepDurationsOf steps
    let totalDuration := totalDurationOf steps
    if totalDuration = some 0 then Except.ok none
    else
      let targetTime := totalDuration.map (fun q => q / 2)
      match midLoop steps durations targetTime (some 0) with
      | some r => r
      | none =>
          match steps.getLast? with
          | some lastStep =>
              match stepEncoded lastStep with
              | some enc =>
                  (getPositionOnPolyline (decodePolyline enc 5) 0.5).map some
              | none => Except.ok none
          | none => Except.ok none

/-- `filterPositionsWithinThreshold(centerPoint, positions, thresholdMeters)`
(lines 245–262): one boolean per position. -/
noncomputable def filterPositionsWithinThreshold (centerPoint : Coord)
    (positions : List Coord) (thresholdMeters : ℝ) : List Bool :=
  positions.map (fun position =>
    decide (haversineDistance centerPoint position ≤ thresholdMeters))

/-! ## Specification-side characterizations used by the claims -/

/-- The selection made by the scan of `getRouteMidpointByDuration`: the
first step (in order) whose `accumulatedTime + stepDuration >= targetTime`,
together with its parsed duration and the time accumulated before it. -/
def findStraddle :
    List GoogleRouteLegStep → List (Option ℚ) → Option ℚ → Option ℚ →
    Option (GoogleRouteLegStep × Option ℚ × Option ℚ)
  | [], _, _, _ => none
  | _ :: _, [], _, _ => none
  | step :: steps, d :: ds, targetTime, accumulatedTime =>
      if nge (nadd accumulatedTime d) targetTime then
        some (step, d, accumulatedTime)
      else findStraddle steps ds targetTime (nadd accumulatedTime d)

/-- The scan returns the action of the body at the selected step. -/
theorem midLoop_eq_findStraddle (steps : List GoogleRouteLegStep) :
    ∀ (ds : List (Option ℚ)) (t acc : Option ℚ),
      midLoop steps ds t acc =
        (findStraddle steps ds t acc).map
          (fun x => stepAction x.1 x.2.1 t x.2.2) := by
  induction steps with
  | nil => intro ds t acc; cases ds <;> simp [midLoop, findStraddle]
  | cons s srest ih =>
      intro ds t acc
      cases ds with
      | nil => simp [midLoop, findStraddle]
      | cons d drest =>
          simp only [midLoop, findStraddle]
          by_cases h : nge (nadd acc d) t = true
          · simp [h]
          · simp [h, ih]

/-- Characters of an encoded polyline with code below 95 end a 5-bit group
(their `byte = code - 63` has the continuation bit `0x20` clear); their
count is the number of encoded integer components. -/
def termCount : List Nat → Nat
  | [] => 0
  | c :: rest => (if c < 95 then 1 else 0) + termCount rest

/-- Drop the characters of the first 5-bit group (everything up to and
including the first group-ending character). -/
def dropAfterFirstTerm : List Nat → List Nat
  | [] => []
  | c :: rest => if c < 95 then rest else dropAfterFirstTerm rest

/-- A well-formed encoded polyline: either empty, or its final character
ends a group (no group is cut off by the end of the string) and the number
of component groups is even (they pair up into latitude/longitude deltas).
For such input the number of encoded delta pairs is `termCount s / 2`. -/
def wellFormedPolyline (s : List Nat) : Bool :=
  match s.getLast? with
  | none => true
  | some c => decide (c < 95) && decide (termCount s % 2 = 0)

/-! ## Shared helper facts for concrete route-step scenarios -/

/-- The canonical reference example of the polyline encoding. -/
def canonicalPolyline : String := "_p~iF~ps|U_ulLnnqC_mqNvxq`@"

theorem parse_sixty : parseDurationToSeconds (some ("60s")) = some 60 := by
  have h : parseFloatScan (String.mk (removeFirstChar "60s".data 's')) =
      some (false, [6, 0], []) := by decide
  have hne : ("60s" : String) ≠ "" := by decide
  simp only [parseDurationToSeconds, if_neg hne, jsParseFloat, h]
  norm_num [digitsToNat, fracVal]

theorem parse_hundred : parseDurationToSeconds (some ("100s")) = some 100 := by
  have h : parseFloatScan (String.mk (removeFirstChar "100s".data 's')) =
      some (false, [1, 0, 0], []) := by decide
  have hne : ("100s" : String) ≠ "" := by decide
  simp only [parseDurationToSeconds, if_neg hne, jsParseFloat, h]
  norm_num [digitsToNat, fracVal]

theorem parse_zero : parseDurationToSeconds (some ("0s")) = some 0 := by
  have h : parseFloatScan (String.mk (removeFirstChar "0s".data 's')) =
      some (false, [0], []) := by decide
  have hne : ("0s" : String) ≠ "" := by decide
  simp only [parseDurationToSeconds, if_neg hne, jsParseFloat, h]
  norm_num [digitsToNat, fracVal]

theorem decode_canonical_ne_nil : decodePolyline canonicalPolyline 5 ≠ [] := by
  have h : decodeLoop (strCodes canonicalPolyline).length (strCodes canonicalPolyline) 0 0 =
      [(-12020000, 3850000), (-12095000, 4070000), (-12645300, 4325200)] := by
    decide
  unfold decodePolyline
  rw [h]
  simp

/-- If every duration is a number (no `NaN`) and the running total from
`a` reaches `t`, the scan finds a straddling step. -/
theorem findStraddle_of_total (steps : List GoogleRouteLegStep) :
    ∀ (ds : List (Option ℚ)) (t a : ℚ),
      steps ≠ [] → ds.length = steps.length →
      (∀ d ∈ ds, ∃ q : ℚ, d = some q) →
      nge (ds.foldl nadd (some a)) (some t) = true →
      (findStraddle steps ds (some t) (some a)).isSome := by
  induction steps with
  | nil => intro ds t a hne; exact absurd rfl hne
  | cons s srest ih =>
      intro ds t a hne hlen hsome hsum
      cases ds with
      | nil => simp at hlen
      | cons d drest =>
          obtain ⟨q, hq⟩ := hsome d (by simp)
          subst hq
          simp only [findStraddle]
          by_cases hg : nge (nadd (some a) (some q)) (some t) = true
          · simp [hg]
          · rw [if_neg (by simpa using hg)]
            cases srest with
            | nil =>
                cases drest with
                | nil =>
                    exfalso
                    apply hg
                    simpa [nadd] using hsum
                | cons x xs => simp at hlen
            | cons s2 srest2 =>
                apply ih
                · simp
                · simpa using hlen
                · intro d2 hd2
                  exact hsome d2 (List.mem_cons_of_mem _ hd2)
                · simpa [nadd] using hsum

/-- A 60-second step whose polyline is the two-character string `"??"`
(decoding to the single coordinate `(0, 0)`). -/
def stepSixtyFiller : GoogleRouteLegStep :=
  { staticDuration := some ("60s"),
    polyline := some { encodedPolyline := some ("??") } }

/-- A 60-second step carrying the canonical example polyline. -/
def stepSixtyCanonical : GoogleRouteLegStep :=
  { staticDuration := some ("60s"),
    polyline := some { encodedPolyline := some canonicalPolyline } }

/-- The three-step route of the multi-step midpoint scenario: durations
`"60s"`, `"60s"`, `"60s"`, the middle step holding the canonical
polyline. -/
def stepsSixtyTriple : List GoogleRouteLegStep :=
  [stepSixtyFiller, stepSixtyCanonical, stepSixtyFiller]

/-- A single 100-second step carrying the canonical example polyline. -/
def stepHundredSingle : List GoogleRouteLegStep :=
  [{ staticDuration := some ("100s"),
     polyline := some { encodedPolyline := some canonicalPolyline } }]

/-! ## Claim C1: decoding the canonical reference example -/

/-- C1: decoding the canonical encoded polyline with precision 5 yields
exactly three coordinates, equal to `[(-120.2, 38.5), (-120.95, 40.7),
(-126.453, 43.252)]` in `(longitude, latitude)` order, each component
within tolerance `1e-5` of these values. -/
theorem C1_decode_canonical_example :
    ∃ p1 p2 p3 : Coord,
      decodePolyline ("_p~iF~ps|U_ulLnnqC_mqNvxq`@") 5 = [p1, p2, p3] ∧
      |p1.1 - (-120.2)| ≤ 1e-5 ∧ |p1.2 - 38.5| ≤ 1e-5 ∧
      |p2.1 - (-120.95)| ≤ 1e-5 ∧ |p2.2 - 40.7| ≤ 1e-5 ∧
      |p3.1 - (-126.453)| ≤ 1e-5 ∧ |p3.2 - 43.252| ≤ 1e-5 := by
  have h : decodeLoop (strCodes ("_p~iF~ps|U_ulLnnqC_mqNvxq`@")).length
      (strCodes ("_p~iF~ps|U_ulLnnqC_mqNvxq`@")) 0 0 =
      [(-12020000, 3850000), (-12095000, 4070000), (-12645300, 4325200)] := by
    decide
  have h2 : decodePolyline ("_p~iF~ps|U_ulLnnqC_mqNvxq`@") 5 =
      [((-120.2 : ℝ), (38.5 : ℝ)), ((-120.95 : ℝ), (40.7 : ℝ)),
       ((-126.453 : ℝ), (43.252 : ℝ))] := by
    unfold decodePolyline
    rw [h]
    simp only [List.map_cons, List.map_nil, List.cons.injEq, Prod.mk.injEq, and_true]
    norm_num
  exact ⟨_, _, _, h2, by norm_num, by norm_num, by norm_num, by norm_num,
    by norm_num, by norm_num⟩

/-! ## Claim C3: behavior on malformed input

The specification requires a decoding error on premature end of string
within a multi-character group and forbids returning a partial or extended
coordinate sequence. The code has no such check: `charCodeAt` past the end
of the string yields `NaN`, `ToInt32(NaN) = 0` silently ends the group, and
a fabricated coordinate is pushed. The single-character input `"_"`
(code 95, continuation bit set, so the string ends mid-group) therefore
decodes without error to the one-element sequence `[(0, 0)]`. -/

/-- C3: on the malformed input `"_"` (premature end of string inside a
multi-character 5-bit group) `decodePolyline` does not fail; it returns
the fabricated singleton coordinate sequence `[(0, 0)]`, contradicting the
required decoding-error behavior. -/
theorem C3_malformed_input_returns_fabricated_coordinate :
    decodePolyline ("_") 5 = [((0 : ℝ), (0 : ℝ))] := by
  have h : decodeLoop (strCodes ("_")).length (strCodes ("_")) 0 0 = [(0, 0)] := by
    decide
  unfold decodePolyline
  rw [h]
  simp

/-! ## Claim C6: empty and singleton paths -/

/-- C6: `getPositionOnPolyline` fails with the "empty path" error on a
zero-length coordinate sequence, and on a singleton `[c]` it returns `c`
for every position `t` (in particular all `t ∈ [-1, 2]`), without
erroring. -/
theorem C6_empty_path_error_and_singleton_total :
    ∀ (t : ℝ) (c : Coord),
      getPositionOnPolyline [] t =
        Except.error ("Polyline must have at least one coordinate") ∧
      getPositionOnPolyline [c] t = Except.ok c := by
  intro t c
  constructor
  · simp [getPositionOnPolyline]
  · simp [getPositionOnPolyline]

/-! ## Claim C7: interpolation endpoints and clamping -/

/-- C7: for every path of length at least two, the position argument is
clamped to `[0, 1]`: every `t ≤ 0` (including `t = 0`) yields the first
coordinate and every `t ≥ 1` (including `t = 1`) yields the last. -/
theorem C7_interpolation_endpoints (path : List Coord) (t : ℝ)
    (hlen : 2 ≤ path.length) :
    (t ≤ 0 → getPositionOnPolyline path t = Except.ok (path.headD (0, 0))) ∧
    (1 ≤ t → getPositionOnPolyline path t = Except.ok (path.getLastD (0, 0))) := by
  constructor
  · intro ht
    have hc : max 0 (min 1 t) = (0 : ℝ) := by
      rw [min_eq_right (le_trans ht zero_le_one), max_eq_left ht]
    simp only [getPositionOnPolyline, hc]
    rw [if_neg (by omega), if_neg (by omega)]
    norm_num
  · intro ht
    have hc : max 0 (min 1 t) = (1 : ℝ) := by
      rw [min_eq_left ht, max_eq_right zero_le_one]
    simp only [getPositionOnPolyline, hc]
    rw [if_neg (by omega), if_neg (by omega)]
    norm_num

/-- C7 witness: on the concrete two-point path `[(0,0), (1,1)]`, position
`-1` resolves to the first coordinate and position `3` to the last. -/
theorem C7_interpolation_endpoints_witness :
    (getPositionOnPolyline [((0 : ℝ), (0 : ℝ)), ((1 : ℝ), (1 : ℝ))] (-1) =
      Except.ok ((0 : ℝ), (0 : ℝ))) ∧
    (getPositionOnPolyline [((0 : ℝ), (0 : ℝ)), ((1 : ℝ), (1 : ℝ))] 3 =
      Except.ok ((1 : ℝ), (1 : ℝ))) := by
  constructor
  · have h := (C7_interpolation_endpoints
      [((0 : ℝ), (0 : ℝ)), ((1 : ℝ), (1 : ℝ))] (-1) (by simp)).1 (by norm_num)
    simpa using h
  · have h := (C7_interpolation_endpoints
      [((0 : ℝ), (0 : ℝ)), ((1 : ℝ), (1 : ℝ))] 3 (by simp)).2 (by norm_num)
    simpa using h

/-! ## Claim C8: haversine distance is symmetric and zero on the diagonal -/

/-- C8: the haversine distance is symmetric in its two arguments, and the
distance from any coordinate to itself is zero. -/
theorem C8_haversine_symmetric_and_zero_on_diagonal :
    ∀ a b : Coord, haversineDistance a b = haversineDistance b a ∧
      haversineDistance a a = 0 := by
  intro p q
  constructor
  · have e1 : (p.2 - q.2) * Real.pi / 180 / 2 =
        -((q.2 - p.2) * Real.pi / 180 / 2) := by ring
    have e2 : (p.1 - q.1) * Real.pi / 180 / 2 =
        -((q.1 - p.1) * Real.pi / 180 / 2) := by ring
    simp only [haversineDistance]
    rw [e1, e2]
    simp only [Real.sin_neg]
    ring_nf
  · simp [haversineDistance, jsAtan2]

/-! ## Claim C2: straddling-step selection and in-step fraction -/

/-- C2: for a route whose total parsed duration is a positive number `T`,
the resolver selects the first step (scanning in order) whose
`accumulated + stepDuration >= T / 2` (the `findStraddle` scan), and when
that step carries a polyline decoding to a non-empty path it returns the
position along that path at fraction `(T / 2 - accumulated) / stepDuration`
when `stepDuration > 0`, else at fraction `0.5`. -/
theorem C2_straddling_step_selection (steps : List GoogleRouteLegStep) (T : ℚ)
    (step : GoogleRouteLegStep) (d acc : ℚ) (enc : String)
    (htot : totalDurationOf steps = some T) (hpos : 0 < T)
    (hfind : findStraddle steps (stepDurationsOf steps) (some (T / 2)) (some 0) =
      some (step, some d, some acc))
    (henc : stepEncoded step = some enc)
    (hne : decodePolyline enc 5 ≠ []) :
    getRouteMidpointByDuration steps =
      (getPositionOnPolyline (decodePolyline enc 5)
        (((if 0 < d then (T / 2 - acc) / d else 1 / 2) : ℚ) : ℝ)).map some := by
  have hne2 : steps ≠ [] := by
    intro h
    subst h
    simp [findStraddle, stepDurationsOf] at hfind
  have htot0 : ¬ (totalDurationOf steps = some 0) := by
    rw [htot]
    intro hx
    exact absurd ((Option.some.injEq _ _).mp hx) (ne_of_gt hpos)
  have htarget : (totalDurationOf steps).map (fun q => q / 2) = some (T / 2) := by
    rw [htot]; rfl
  simp [getRouteMidpointByDuration, List.length_eq_zero, hne2, htot0, htarget,
    midLoop_eq_findStraddle, hfind, stepAction, henc, hne]

/-- C2 witness: for three steps of durations `"60s"`, `"60s"`, `"60s"`
(total 180, target 90), the second step (accumulated 60 before it,
60 + 60 = 120 ≥ 90) is selected and the in-step fraction is
`(90 - 60) / 60 = 0.5`. -/
theorem C2_straddling_step_selection_witness :
    findStraddle stepsSixtyTriple (stepDurationsOf stepsSixtyTriple)
      (some ((180 : ℚ) / 2)) (some 0) =
      some (stepSixtyCanonical, some 60, some 60) ∧
    getRouteMidpointByDuration stepsSixtyTriple =
      (getPositionOnPolyline (decodePolyline canonicalPolyline 5)
        (((1 / 2 : ℚ)) : ℝ)).map some := by
  have hds : stepDurationsOf stepsSixtyTriple = [some 60, some 60, some 60] := by
    simp [stepDurationsOf, stepsSixtyTriple, stepSixtyFiller, stepSixtyCanonical,
      parse_sixty]
  have htot : totalDurationOf stepsSixtyTriple = some 180 := by
    unfold totalDurationOf
    rw [hds]
    simp only [List.foldl, nadd]
    norm_num
  have hfind : findStraddle stepsSixtyTriple (stepDurationsOf stepsSixtyTriple)
      (some ((180 : ℚ) / 2)) (some 0) =
      some (stepSixtyCanonical, some 60, some 60) := by
    rw [hds]
    simp only [stepsSixtyTriple, findStraddle, nadd, nge]
    norm_num
  refine ⟨hfind, ?_⟩
  have h := C2_straddling_step_selection stepsSixtyTriple 180 stepSixtyCanonical
    60 60 canonicalPolyline htot (by norm_num) hfind
    (by simp only [stepEncoded, stepSixtyCanonical]
        rw [if_neg (by decide)]) decode_canonical_ne_nil
  have hfrac : (if (0 : ℚ) < 60 then ((180 : ℚ) / 2 - 60) / 60 else 1 / 2) =
      (1 / 2 : ℚ) := by norm_num
  rw [hfrac] at h
  exact h

/-! ## Claim C4: duration-string parsing

The specification says an unparseable duration string is treated as 0
seconds. The code returns `parseFloat(duration.replace("s", ""))` without
any `NaN` check, so an unparseable string yields `NaN` (not 0); only an
absent or empty duration yields 0. -/

/-- C4 counterexample: the unparseable duration string `"abc"` is parsed
to `NaN` (`none`), not to `0`, refuting the claim that unparseable
durations are treated as 0 seconds. -/
theorem C4_unparseable_duration_counterexample :
    parseDurationToSeconds (some ("abc")) = none ∧
    parseDurationToSeconds (some ("abc")) ≠ some 0 := by
  have h : parseFloatScan (String.mk (removeFirstChar "abc".data 's')) = none := by
    decide
  have h2 : parseDurationToSeconds (some ("abc")) = none := by
    simp only [parseDurationToSeconds, jsParseFloat, h]
    decide
  exact ⟨h2, by simp [h2]⟩

/-- C4 amended: a missing duration string and an empty duration string are
treated as 0 seconds, but an unparseable duration string (one on which
`parseFloat` yields `NaN` after removing the first `"s"`) is parsed to
`NaN` (`none`), not 0. -/
theorem C4_duration_parsing_amended :
    parseDurationToSeconds none = some 0 ∧
    parseDurationToSeconds (some ("")) = some 0 ∧
    ∀ s : String, s ≠ "" →
      jsParseFloat (String.mk (removeFirstChar s.data 's')) = none →
      parseDurationToSeconds (some s) = none := by
  refine ⟨rfl, by simp [parseDurationToSeconds], ?_⟩
  intro s hs hnan
  simp only [parseDurationToSeconds, if_neg hs]
  exact hnan

/-- C4 witness: the amended statement applied to the concrete unparseable
duration string `"abc"`. -/
theorem C4_duration_parsing_amended_witness :
    parseDurationToSeconds (some ("abc")) = none := by
  have h : parseFloatScan (String.mk (removeFirstChar "abc".data 's')) = none := by
    decide
  exact C4_duration_parsing_amended.2.2 ("abc") (by decide) (by simp [jsParseFloat, h])

/-! ## Claim C5: NoResult cases of the midpoint resolver -/

/-- C5: the resolver returns `null` (`Option.none`, not a coordinate and
not an exception) on an empty step list, whenever the total parsed
duration equals 0, and whenever the straddling step selected by the scan
has no encoded polyline — in the last case regardless of what any other
step carries. -/
theorem C5_noresult_cases :
    (getRouteMidpointByDuration [] = Except.ok none) ∧
    (∀ steps, totalDurationOf steps = some 0 →
      getRouteMidpointByDuration steps = Except.ok none) ∧
    (∀ steps step d acc,
      findStraddle steps (stepDurationsOf steps)
        ((totalDurationOf steps).map (fun q => q / 2)) (some 0) =
        some (step, d, acc) →
      stepEncoded step = none →
      getRouteMidpointByDuration steps = Except.ok none) := by
  refine ⟨by simp [getRouteMidpointByDuration], ?_, ?_⟩
  · intro steps h
    simp [getRouteMidpointByDuration, h]
  · intro steps step d acc hfind henc
    have hne : steps ≠ [] := by
      intro h
      subst h
      simp [findStraddle, stepDurationsOf] at hfind
    by_cases htot : totalDurationOf steps = some 0
    · simp [getRouteMidpointByDuration, htot]
    · simp [getRouteMidpointByDuration, List.length_eq_zero, hne, htot,
        midLoop_eq_findStraddle, hfind, stepAction, henc]

/-- C5 witness: a one-step route with duration `"0s"` (and a present
polyline) resolves to `null` because the total is 0, and a one-step route
with duration `"60s"` but no polyline object resolves to `null` at the
selected straddling step. -/
theorem C5_noresult_cases_witness :
    (getRouteMidpointByDuration
        [{ staticDuration := some ("0s"),
           polyline := some { encodedPolyline := some canonicalPolyline } }] =
      Except.ok none) ∧
    (getRouteMidpointByDuration
        [{ staticDuration := some ("60s"), polyline := none }] =
      Except.ok none) := by
  constructor
  · apply C5_noresult_cases.2.1
    simp [totalDurationOf, stepDurationsOf, parse_zero, nadd]
  · apply C5_noresult_cases.2.2
      [{ staticDuration := some ("60s"), polyline := none }]
      { staticDuration := some ("60s"), polyline := none } (some 60) (some 0)
    · simp only [stepDurationsOf, List.map, parse_sixty, totalDurationOf,
        List.foldl]
      simp only [nadd, Option.map_some]
      simp only [findStraddle, nadd, nge]
      norm_num
    · simp [stepEncoded]

/-! ## Claim C10: the post-loop fallback is unreachable for parsed routes -/

/-- C10: if every step duration parses to a number and the total `T` is
positive, the scan always finds a straddling step, and the resolver's
result is the in-loop action at that step — the post-loop fallback branch
(geometric midpoint of the last step) is never consulted. -/
theorem C10_fallback_unreachable (steps : List GoogleRouteLegStep) (T : ℚ)
    (hparse : ∀ d ∈ stepDurationsOf steps, ∃ q : ℚ, d = some q ∧ 0 ≤ q)
    (htot : totalDurationOf steps = some T) (hpos : 0 < T) :
    ∃ step d acc,
      findStraddle steps (stepDurationsOf steps) (some (T / 2)) (some 0) =
        some (step, d, acc) ∧
      getRouteMidpointByDuration steps = stepAction step d (some (T / 2)) acc := by
  have hne : steps ≠ [] := by
    intro h
    subst h
    have h0 : totalDurationOf ([] : List GoogleRouteLegStep) = some 0 := rfl
    rw [htot] at h0
    exact absurd ((Option.some.injEq _ _).mp h0) (ne_of_gt hpos)
  have hsum : nge ((stepDurationsOf steps).foldl nadd (some 0)) (some (T / 2)) =
      true := by
    have he : (stepDurationsOf steps).foldl nadd (some 0) = totalDurationOf steps :=
      rfl
    rw [he, htot]
    simp only [nge, ge_iff_le, decide_eq_true_eq]
    linarith
  have hs := findStraddle_of_total steps (stepDurationsOf steps) (T / 2) 0 hne
    (by simp [stepDurationsOf]) (fun d hd => (hparse d hd).imp (fun q hq => hq.1))
    hsum
  obtain ⟨x, hfind⟩ := Option.isSome_iff_exists.mp hs
  obtain ⟨step, d, acc⟩ := x
  refine ⟨step, d, acc, hfind, ?_⟩
  have htot0 : ¬ (totalDurationOf steps = some 0) := by
    rw [htot]
    intro hx
    exact absurd ((Option.some.injEq _ _).mp hx) (ne_of_gt hpos)
  have htarget : (totalDurationOf steps).map (fun q => q / 2) = some (T / 2) := by
    rw [htot]; rfl
  simp [getRouteMidpointByDuration, List.length_eq_zero, hne, htot0, htarget,
    midLoop_eq_findStraddle, hfind]

/-- C10 witness: a single step of duration `"100s"` with a polyline — the
scan finds the straddling step and the result is the in-loop action. -/
theorem C10_fallback_unreachable_witness :
    ∃ step d acc,
      findStraddle stepHundredSingle (stepDurationsOf stepHundredSingle)
        (some ((100 : ℚ) / 2)) (some 0) = some (step, d, acc) ∧
      getRouteMidpointByDuration stepHundredSingle =
        stepAction step d (some ((100 : ℚ) / 2)) acc := by
  apply C10_fallback_unreachable stepHundredSingle 100
  · intro d hd
    simp only [stepDurationsOf, stepHundredSingle, List.map, parse_hundred] at hd
    simp only [List.mem_singleton] at hd
    exact ⟨100, hd, by norm_num⟩
  · simp only [totalDurationOf, stepDurationsOf, stepHundredSingle, List.map,
      parse_hundred, List.foldl, nadd]
    norm_num
  · norm_num

/-! ## Decoder structure lemmas for the pair-count invariant -/


lemma decodeGroup_snd (s : List Nat) :
    ∀ (shift : Nat) (result : Int),
      (decodeGroup s shift result).2 = dropAfterFirstTerm s := by
  induction s with
  | nil => intro shift result; rfl
  | cons c rest ih =>
      intro shift result
      simp only [decodeGroup, dropAfterFirstTerm]
      by_cases h : c < 95
      · rw [if_neg (by omega), if_pos h]
      · rw [if_pos (by omega), if_neg h]
        exact ih _ _

lemma termCount_drop (s : List Nat) (h : 0 < termCount s) :
    termCount (dropAfterFirstTerm s) = termCount s - 1 := by
  induction s with
  | nil => simp [termCount] at h
  | cons c rest ih =>
      by_cases hc : c < 95
      · simp [dropAfterFirstTerm, termCount, hc]
      · have h2 : 0 < termCount rest := by simpa [termCount, hc] using h
        simp only [dropAfterFirstTerm, if_neg hc, termCount, ih h2]
        omega

lemma length_drop (s : List Nat) (h : 0 < termCount s) :
    (dropAfterFirstTerm s).length < s.length := by
  induction s with
  | nil => simp [termCount] at h
  | cons c rest ih =>
      by_cases hc : c < 95
      · simp [dropAfterFirstTerm, hc]
      · have h2 : 0 < termCount rest := by simpa [termCount, hc] using h
        have := ih h2
        simp only [dropAfterFirstTerm, if_neg hc, List.length_cons]
        omega

lemma suffix_drop (s : List Nat) : dropAfterFirstTerm s <:+ s := by
  induction s with
  | nil => exact List.suffix_refl []
  | cons c rest ih =>
      simp only [dropAfterFirstTerm]
      by_cases hc : c < 95
      · rw [if_pos hc]
        exact List.suffix_cons c rest
      · rw [if_neg hc]
        exact ih.trans (List.suffix_cons c rest)

lemma ne_nil_of_termCount_pos {s : List Nat} (h : 0 < termCount s) : s ≠ [] := by
  intro hs
  subst hs
  simp [termCount] at h

lemma getLast?_drop (s : List Nat) (h : dropAfterFirstTerm s ≠ []) :
    (dropAfterFirstTerm s).getLast? = s.getLast? := by
  obtain ⟨u, hu⟩ := suffix_drop s
  have h2 := List.getLast?_append_of_ne_nil u h
  rw [hu] at h2
  exact h2.symm

lemma termCount_pos_of_getLast (s : List Nat) (l : Nat)
    (hg : s.getLast? = some l) (hl : l < 95) : 0 < termCount s := by
  induction s with
  | nil => simp at hg
  | cons c rest ih =>
      cases rest with
      | nil =>
          simp only [List.getLast?_singleton, Option.some.injEq] at hg
          subst hg
          simp [termCount, hl]
      | cons d rest2 =>
          rw [List.getLast?_cons_cons] at hg
          have h3 := ih hg
          simp only [termCount] at h3 ⊢
          omega

lemma decodeLoop_length (fuel : Nat) :
    ∀ (s : List Nat) (lat lng : Int),
      s.length ≤ fuel → wellFormedPolyline s = true →
      (decodeLoop fuel s lat lng).length = termCount s / 2 := by
  induction fuel with
  | zero =>
      intro s lat lng hle hwf
      have hnil : s = [] := List.length_eq_zero.mp (Nat.le_zero.mp hle)
      subst hnil
      simp [decodeLoop, termCount]
  | succ f ih =>
      intro s lat lng hle hwf
      cases s with
      | nil => simp [decodeLoop, termCount]
      | cons c rest =>
          obtain ⟨l, hg⟩ : ∃ l, (c :: rest).getLast? = some l := by
            cases hgl : (c :: rest).getLast? with
            | none =>
                rw [List.getLast?_eq_none_iff] at hgl
                exact absurd hgl (by simp)
            | some l => exact ⟨l, rfl⟩
          unfold wellFormedPolyline at hwf
          rw [hg] at hwf
          simp only [Bool.and_eq_true, decide_eq_true_eq] at hwf
          obtain ⟨hl95, heven⟩ := hwf
          have htc : 0 < termCount (c :: rest) :=
            termCount_pos_of_getLast (c :: rest) l hg hl95
          have htc2 : 2 ≤ termCount (c :: rest) := by omega
          have ht1 : termCount (dropAfterFirstTerm (c :: rest)) =
              termCount (c :: rest) - 1 := termCount_drop _ htc
          have ht1pos : 0 < termCount (dropAfterFirstTerm (c :: rest)) := by omega
          have ht2 : termCount (dropAfterFirstTerm (dropAfterFirstTerm (c :: rest))) =
              termCount (c :: rest) - 2 := by
            rw [termCount_drop _ ht1pos, ht1]
            omega
          have hl1 : (dropAfterFirstTerm (c :: rest)).length < (c :: rest).length :=
            length_drop _ htc
          have hl2 : (dropAfterFirstTerm (dropAfterFirstTerm (c :: rest))).length <
              (dropAfterFirstTerm (c :: rest)).length := length_drop _ ht1pos
          have hle2 : (dropAfterFirstTerm (dropAfterFirstTerm (c :: rest))).length ≤ f := by
            have := hle
            simp only [List.length_cons] at this
            omega
          have hwf2 : wellFormedPolyline
              (dropAfterFirstTerm (dropAfterFirstTerm (c :: rest))) = true := by
            by_cases h2e : dropAfterFirstTerm (dropAfterFirstTerm (c :: rest)) = []
            · rw [h2e]
              rfl
            · have h1e : dropAfterFirstTerm (c :: rest) ≠ [] :=
                ne_nil_of_termCount_pos ht1pos
              have hg2 := getLast?_drop _ h2e
              have hg1 := getLast?_drop _ h1e
              unfold wellFormedPolyline
              rw [hg2, hg1, hg]
              simp only [Bool.and_eq_true, decide_eq_true_eq]
              exact ⟨hl95, by rw [ht2]; omega⟩
          simp only [decodeLoop]
          rw [decodeGroup_snd (c :: rest) 0 0, decodeGroup_snd _ 0 0]
          simp only [List.length_cons]
          rw [ih _ _ _ hle2 hwf2, ht2]
          omega

/-! ## Claim C9: one decoded coordinate per encoded delta pair -/

/-- C9: for every well-formed encoded polyline string (every 5-bit group
closed by a terminating character and an even number of component groups),
the decoded sequence has exactly one element per (latitude, longitude)
delta pair — half the number of component groups — and the empty string
decodes to the empty sequence. -/
theorem C9_one_coordinate_per_delta_pair :
    (∀ s : String, wellFormedPolyline (strCodes s) = true →
      (decodePolyline s 5).length = termCount (strCodes s) / 2) ∧
    decodePolyline ("") 5 = [] := by
  constructor
  · intro s hwf
    unfold decodePolyline
    rw [List.length_map]
    exact decodeLoop_length _ _ 0 0 le_rfl hwf
  · rfl

/-- C9 witness: the canonical example string is well formed, encodes three
delta pairs (six component groups), and decodes to three coordinates. -/
theorem C9_one_coordinate_per_delta_pair_witness :
    wellFormedPolyline (strCodes canonicalPolyline) = true ∧
    termCount (strCodes canonicalPolyline) / 2 = 3 ∧
    (decodePolyline canonicalPolyline 5).length = 3 := by
  have hwf : wellFormedPolyline (strCodes canonicalPolyline) = true := by decide
  have htc : termCount (strCodes canonicalPolyline) / 2 = 3 := by decide
  refine ⟨hwf, htc, ?_⟩
  rw [C9_one_coordinate_per_delta_pair.1 canonicalPolyline hwf, htc]

end MiddlePub
